import Mathlib

/-
Shallow embedding of src/BigInteger.hpp (namespace gh).

Representation notes.
The C++ class stores the digits in a vector of char, each element holding
the value digit + 48 (the code of the zero character); every read site
subtracts 48 again, so the model stores the digit values themselves, as
integers (a digit can be negative when the int constructor is fed the most
negative 32-bit value, see fromInt below).  The digit order is least
significant first, exactly as in m_data.

The four arithmetic member operators (+=, -=, *= by BigInteger, *= by int)
delegate to one another: mixed-sign addition calls subtraction on a negated
operand and vice versa, and the negation itself is the scalar product
rhs * -1, which is routed through the BigInteger multiplication.  In the
C++ source those calls can recurse without bound, so the model gives every
operator a fuel parameter and returns Err.fuelOut when the fuel runs dry;
a result that is Err.fuelOut for every fuel is a genuinely divergent call
of the C++ program.  The out-of-range write in change_digit, which the
C++ code signals by throwing, is the second error alternative.
-/

namespace gh

/-- Sign of a BigInteger, from: enum class Sign in BigInteger.hpp. -/
inductive Sign
  | POSITIVE
  | NEGATIVE
deriving DecidableEq, BEq

/-- Decimal base, from: const auto BASE = 10. -/
def BASE : Int := 10

/-- State of a gh::BigInteger object: the sign flag m_sign and the digit
vector m_data, least significant digit first, each entry the stored char
value minus 48. -/
structure BigInteger where
  m_sign : Sign
  m_data : List Int
deriving DecidableEq

/-- Failure values of the embedding.  invalidPos models the C++ throw in
change_digit (the raw string carrying the offending position); fuelOut is
the fuel-exhaustion marker used to make the mutually recursive operator
bodies total. -/
inductive Err
  | fuelOut
  | invalidPos (pos : Int)
deriving DecidableEq

/-- Member is_positive: m_sign == Sign::POSITIVE. -/
def is_positive (b : BigInteger) : Bool := b.m_sign == Sign.POSITIVE

/-- Member is_negative: m_sign == Sign::NEGATIVE. -/
def is_negative (b : BigInteger) : Bool := b.m_sign == Sign.NEGATIVE

/-- Member count(): the number of stored digits. -/
def count (b : BigInteger) : Nat := b.m_data.length

/-- Member get_digit on a raw digit vector: the digit at position pos if
0 <= pos < length, and 0 for every out-of-range position. -/
def get_digitL (data : List Int) (pos : Int) : Int :=
  if 0 ≤ pos ∧ pos < (data.length : Int) then data.getD pos.toNat 0 else 0

/-- Member get_digit of the class. -/
def get_digit (b : BigInteger) (pos : Int) : Int :=
  get_digitL b.m_data pos

/-- Member change_digit: writes val at position pos when 0 <= pos < length
and otherwise throws, carrying the offending position. -/
def change_digit (data : List Int) (pos : Int) (val : Int) : Except Err (List Int) :=
  if 0 ≤ pos ∧ pos < (data.length : Int) then .ok (data.set pos.toNat val)
  else .error (.invalidPos pos)

/-- Member push_digit: appends a digit at the most significant end. -/
def push_digit (data : List Int) (val : Int) : List Int := data ++ [val]

/-- Member normalize(): pops digits from the most significant end while
they are zero.  On the LSD-first list this removes the maximal run of
zeros at the back. -/
def normalizeData (data : List Int) : List Int :=
  ((data.reverse).dropWhile (fun d => d == 0)).reverse

/-- Digit loop of operator+= (the same-sign branch): iterates i from 0 to
max(l_size, r_size) - 1; at each position the digit sum plus carry is
split by BASE, written in place while i < l_size and pushed beyond; the
final carry, when nonzero, is pushed as one more digit.  The arguments
are the captured l_size, the digit vector of rhs, the loop index i, the
number of remaining iterations, the evolving digit vector of this, and
the carry. -/
def addLoop (l_size : Nat) (rhs : List Int) : Nat → Nat → List Int → Int → Except Err (List Int)
  | _, 0, data, carry => .ok (if carry ≠ 0 then push_digit data carry else data)
  | i, k+1, data, carry =>
      let sum := get_digitL data i + get_digitL rhs i + carry
      let carry2 := sum.tdiv BASE
      let sum2 := sum.tmod BASE
      if i < l_size then
        (change_digit data i sum2).bind (fun data2 => addLoop l_size rhs (i+1) k data2 carry2)
      else
        addLoop l_size rhs (i+1) k (push_digit data sum2) carry2

/-- Digit loop of operator-= (the final branch): iterates i from 0 to
count() - 1, subtracting the rhs digit and the borrow, adding 10 and
setting the borrow when the difference is negative, and writing the digit
in place.  change_digit never resizes the vector, so count() is the
initial length throughout; the remaining-iteration argument starts at that
length. -/
def subLoop (rhs : List Int) : Nat → Int → Nat → List Int → Except Err (List Int)
  | _, _, 0, data => .ok data
  | i, borrow, k+1, data =>
      let diff := get_digitL data i - get_digitL rhs i - borrow
      let diff2 := if diff < 0 then diff + 10 else diff
      let borrow2 : Int := if diff < 0 then 1 else 0
      (change_digit data i diff2).bind (subLoop rhs (i+1) borrow2 k)

/-- Digit loop of operator*= for a scalar in (1, BASE]: each digit is
multiplied by num, the incoming carry added, the low digit written in
place and the high part carried; the final carry, when nonzero, is pushed
as one more digit. -/
def scalarLoop (num : Int) : Nat → Int → Nat → List Int → Except Err (List Int)
  | _, carry, 0, data => .ok (if carry ≠ 0 then push_digit data carry else data)
  | i, carry, k+1, data =>
      let product := num * get_digitL data i + carry
      (change_digit data i (product.tmod BASE)).bind
        (scalarLoop num (i+1) (product.tdiv BASE) k)

/-- Unrolled form of scalarLoop: the same computation written as a
structural recursion over the digit list, used to state the loop
invariant (the bridge lemma scalarLoop_eq_pure proves the two agree on
every in-range run). -/
def scalarPure (num : Int) : List Int → Int → List Int
  | [], carry => if carry ≠ 0 then [carry] else []
  | d :: rest, carry =>
      (num * d + carry).tmod BASE :: scalarPure num rest ((num * d + carry).tdiv BASE)

/-- A result that is not the out-of-range write failure of change_digit,
for any offending position. -/
def notInvalid {α : Type} (r : Except Err α) : Prop :=
  ∀ p : Int, r ≠ .error (.invalidPos p)

/-- Helper for the int constructor: 32-bit wraparound of a signed value,
used to give the overflowing negation num *= -1 the customary
two's-complement semantics. -/
def wrap32 (x : Int) : Int := (x + 2^31).emod (2^32) - 2^31

/-- Digit-extraction loop of the int constructor: while num is nonzero,
push num % BASE and divide num by 10 (both with the C truncating
semantics, which matters when num is negative).  The C++ loop needs at
most 11 iterations for a 32-bit int, so the fixed fuel of 64 is never
exhausted on the constructor inputs the model is used with. -/
def intDigitsLoop : Nat → Int → List Int
  | 0, _ => []
  | fuel+1, num =>
      if num = 0 then []
      else (num.tmod BASE) :: intDigitsLoop fuel (num.tdiv 10)

/-- Constructor BigInteger(int num): a negative argument sets the sign
and is negated (with 32-bit wraparound, so the most negative value stays
negative), then the digits are pushed least significant first. -/
def fromInt (num : Int) : BigInteger :=
  if num < 0 then ⟨Sign.NEGATIVE, intDigitsLoop 64 (wrap32 (-num))⟩
  else ⟨Sign.POSITIVE, intDigitsLoop 64 num⟩

/-- Member parse plus the body of the string constructors: a leading minus
character sets the sign and is consumed, underscores are dropped, and the
remaining characters are pushed back to front, each converted by
subtracting 48.  No normalization is performed. -/
def parseChars (s : List Char) : Sign × List Char :=
  match s with
  | '-' :: rest => (Sign.NEGATIVE, rest.filter (fun c => c ≠ '_'))
  | _ => (Sign.POSITIVE, s.filter (fun c => c ≠ '_'))

/-- Constructors BigInteger(const char*) and BigInteger(const string&). -/
def fromString (s : String) : BigInteger :=
  let p := parseChars s.data
  ⟨p.1, (p.2.reverse).map (fun c => ((c.toNat : Int) - 48))⟩

/-- Member to_string(): a minus character when negative, then the digits
from most significant to least significant, each emitted as the char of
value digit + 48; an empty result string is replaced by the single zero
character. -/
def to_string (b : BigInteger) : String :=
  let res := (if is_negative b then "-" else "")
      ++ String.mk (b.m_data.reverse.map (fun d => Char.ofNat (d + 48).toNat))
  if res.length ≠ 0 then res else "0"

/-- Downward digit loop of less_than: compares digits from position
l_size - 1 down to 0; the first position where they differ decides,
returning is_positive of this when the digit of this is smaller and
is_negative of this when it is larger; equal vectors fall through to
false. -/
def ltLoop (a b : BigInteger) : Nat → Bool
  | 0 => false
  | i+1 =>
      if get_digit a i < get_digit b i then is_positive a
      else if get_digit b i < get_digit a i then is_negative a
      else ltLoop a b i

/-- Member less_than: differing signs make the negative side smaller;
with equal signs a length difference decides (shorter positive or longer
negative is smaller); otherwise the digits are compared from the most
significant end. -/
def less_than (a b : BigInteger) : Bool :=
  if a.m_sign != b.m_sign then is_negative a
  else if a.m_data.length != b.m_data.length then
    (decide (a.m_data.length < b.m_data.length) && is_positive a)
      || (decide (b.m_data.length < a.m_data.length) && is_negative a)
  else ltLoop a b a.m_data.length

/-- Digit loop of member equal: compares positions 0 to l_size - 1. -/
def eqLoop (a b : BigInteger) : Nat → Nat → Bool
  | _, 0 => true
  | i, k+1 => (get_digit a i == get_digit b i) && eqLoop a b (i+1) k

/-- Member equal: differing length or sign is unequal, otherwise the
digits are compared pointwise. -/
def equal (a b : BigInteger) : Bool :=
  if a.m_data.length != b.m_data.length || a.m_sign != b.m_sign then false
  else eqLoop a b 0 a.m_data.length

/-- Free operator== . -/
def eqBig (a b : BigInteger) : Bool := equal a b

/-- Free operator!= . -/
def neBig (a b : BigInteger) : Bool := !(eqBig a b)

/-- Free operator< . -/
def ltBig (a b : BigInteger) : Bool := less_than a b

/-- Free operator<= : (lhs == rhs) || (lhs < rhs). -/
def leBig (a b : BigInteger) : Bool := eqBig a b || ltBig a b

/-- Free operator> : rhs < lhs. -/
def gtBig (a b : BigInteger) : Bool := ltBig b a

/-- Free operator>= , exactly as written in the source:
(lhs == rhs) || (rhs > rhs).  The second disjunct compares rhs with
itself. -/
def geBig (a b : BigInteger) : Bool := eqBig a b || gtBig b b

/-- The five mutually recursive arithmetic entry points at one fuel
level.  add and sub are the non-aliased paths of operator+= and
operator-= (the this == &rhs branches are the separate definitions
addAssignSelf and subAssignSelf below); mulBig is operator*= by a
BigInteger, mulLoop its digit loop, and mulInt is operator*= by an int,
which is also the body of the value-returning operator* overloads, since
those copy and then apply the compound assignment. -/
structure Ops where
  add : BigInteger → BigInteger → Except Err BigInteger
  sub : BigInteger → BigInteger → Except Err BigInteger
  mulBig : BigInteger → BigInteger → Except Err BigInteger
  mulLoop : List Int → BigInteger → BigInteger → Except Err BigInteger
  mulInt : BigInteger → Int → Except Err BigInteger

/-- One fuel level of every arithmetic operator.  Each cross-operator
call in the C++ source is modelled by a call into the previous level, so
a computation answers Err.fuelOut for every fuel exactly when the C++
call never returns.

Level fuel+1 bodies, following BigInteger.hpp line by line:
add: signs differing (is_positive mismatch) delegates to sub on rhs * -1;
otherwise the carry loop runs over max(l_size, r_size) digits and the
sign is kept.
sub: is_negative mismatch delegates to add on rhs * -1; with equal signs,
a positive this smaller than rhs or a negative this greater than rhs is
restated as this = rhs - this with the resulting sign flipped; otherwise
the borrow loop runs over count() digits and the result is normalized.
mulBig: remembers whether the operand signs differ, folds the digit loop
over the digits of rhs starting from sum = BigInteger(0) and lhs = this,
and forces the sign to NEGATIVE at the end when the signs differed.
mulLoop: for each digit of rhs adds lhs * digit into sum and multiplies
lhs by 10.
mulInt: num == 0 assigns BigInteger(0); num == 1 returns this unchanged;
BASE < num or num < 0 delegates to mulBig on BigInteger(num); otherwise
the scalar digit loop runs and the sign becomes NEGATIVE when this was
negative and num positive. -/
def ops : Nat → Ops
  | 0 =>
      ⟨fun _ _ => .error .fuelOut, fun _ _ => .error .fuelOut,
       fun _ _ => .error .fuelOut, fun _ _ _ => .error .fuelOut,
       fun _ _ => .error .fuelOut⟩
  | fuel+1 =>
      let prev := ops fuel
      { add := fun a b =>
          if is_positive a != is_positive b then
            (prev.mulInt b (-1)).bind (fun nb => prev.sub a nb)
          else
            (addLoop (count a) b.m_data 0 (max (count a) (count b)) a.m_data 0).bind
              (fun data => .ok ⟨a.m_sign, data⟩)
        sub := fun a b =>
          if is_negative a != is_negative b then
            (prev.mulInt b (-1)).bind (fun nb => prev.add a nb)
          else if (is_positive a && less_than a b) || (is_negative a && less_than b a) then
            (prev.sub b a).bind (fun c =>
              .ok (if is_positive c then ⟨Sign.NEGATIVE, c.m_data⟩
                   else ⟨Sign.POSITIVE, c.m_data⟩))
          else
            (subLoop b.m_data 0 0 (count a) a.m_data).bind
              (fun data => .ok ⟨a.m_sign, normalizeData data⟩)
        mulBig := fun a b =>
          let negate_it := a.m_sign != b.m_sign
          (prev.mulLoop b.m_data (fromInt 0) a).bind (fun sum =>
            .ok (if negate_it then ⟨Sign.NEGATIVE, sum.m_data⟩ else sum))
        mulLoop := fun ds sum lhs =>
          match ds with
          | [] => .ok sum
          | d :: rest =>
              (prev.mulInt lhs d).bind (fun p =>
                (prev.add sum p).bind (fun sum2 =>
                  (prev.mulInt lhs 10).bind (fun lhs2 =>
                    prev.mulLoop rest sum2 lhs2)))
        mulInt := fun a num =>
          if num = 0 then .ok (fromInt 0)
          else if num = 1 then .ok a
          else if BASE < num ∨ num < 0 then prev.mulBig a (fromInt num)
          else
            let negate_it := is_negative a && decide (0 < num)
            (scalarLoop num 0 0 (count a) a.m_data).bind (fun data =>
              .ok ⟨if negate_it then Sign.NEGATIVE else a.m_sign, data⟩) }

/-- operator+= on distinct objects (and operator+, which copies first and
therefore always takes the non-aliased path). -/
def addAssign (fuel : Nat) (a b : BigInteger) : Except Err BigInteger :=
  (ops fuel).add a b

/-- operator-= on distinct objects (and operator-). -/
def subAssign (fuel : Nat) (a b : BigInteger) : Except Err BigInteger :=
  (ops fuel).sub a b

/-- operator*= by a BigInteger (and the BigInteger operator*). -/
def mulAssignBig (fuel : Nat) (a b : BigInteger) : Except Err BigInteger :=
  (ops fuel).mulBig a b

/-- operator*= by an int (and the int operator*). -/
def mulAssignInt (fuel : Nat) (a : BigInteger) (num : Int) : Except Err BigInteger :=
  (ops fuel).mulInt a num

/-- The this == &rhs branch of operator+=: the object is multiplied by
two. -/
def addAssignSelf (fuel : Nat) (a : BigInteger) : Except Err BigInteger :=
  mulAssignInt fuel a 2

/-- The this == &rhs branch of operator-=: the object is assigned
BigInteger(0). -/
def subAssignSelf (_ : BigInteger) : BigInteger := fromInt 0

/-- Numeric value of an LSD-first digit vector. -/
def listVal : List Int → Int
  | [] => 0
  | d :: rest => d + 10 * listVal rest

/-- Numeric value of a BigInteger state. -/
def bigVal (b : BigInteger) : Int :=
  (if b.m_sign = Sign.NEGATIVE then -1 else 1) * listVal b.m_data

/-- Normalization predicate of the specification: the digit vector is
empty or its most significant digit is nonzero. -/
def no_leading_zeros (b : BigInteger) : Bool :=
  match b.m_data.reverse with
  | [] => true
  | d :: _ => d != 0

theorem ok_bind {α β : Type} (a : α) (f : α → Except Err β) :
    (Except.ok a : Except Err α).bind f = f a := rfl

theorem error_bind {α β : Type} (e : Err) (f : α → Except Err β) :
    (Except.error e : Except Err α).bind f = .error e := rfl

/-- Divergence of scalar negation on a negative operand.  For every state
v with the NEGATIVE sign flag, the call v * -1 never returns: it is
routed to v *= BigInteger(-1), whose digit loop computes v * 1 and adds
it into the POSITIVE zero accumulator; that addition sees differing signs
and delegates back to v * -1.  The four conjuncts are the four stations
of that cycle, all equal to fuelOut at every fuel. -/
theorem mulNegOne_diverges (v : BigInteger) (hs : v.m_sign = Sign.NEGATIVE) :
    ∀ f : Nat,
      (ops f).mulInt v (-1) = .error .fuelOut
        ∧ (ops f).mulBig v (fromInt (-1)) = .error .fuelOut
        ∧ (ops f).mulLoop [1] (fromInt 0) v = .error .fuelOut
        ∧ (ops f).add (fromInt 0) v = .error .fuelOut := by
  have hpos : is_positive v = false := by
    simp [is_positive, hs]
    decide
  intro f
  induction f using Nat.strong_induction_on with
  | _ f ih =>
    match f with
    | 0 => exact ⟨rfl, rfl, rfl, rfl⟩
    | f + 1 =>
      refine ⟨?_, ?_, ?_, ?_⟩
      · have h : (ops (f+1)).mulInt v (-1) = (ops f).mulBig v (fromInt (-1)) := rfl
        rw [h, (ih f (Nat.lt_succ_self f)).2.1]
      · have h : (ops (f+1)).mulBig v (fromInt (-1))
            = ((ops f).mulLoop [1] (fromInt 0) v).bind
                (fun sum => .ok (if v.m_sign != Sign.NEGATIVE then ⟨Sign.NEGATIVE, sum.m_data⟩
                                 else sum)) := rfl
        rw [h, (ih f (Nat.lt_succ_self f)).2.2.1, error_bind]
      · match f, ih with
        | 0, _ => rfl
        | g + 1, ih =>
          have h : (ops (g+1+1)).mulLoop [1] (fromInt 0) v
              = ((ops (g+1)).add (fromInt 0) v).bind (fun sum2 =>
                  (((ops (g+1)).mulInt v 10).bind (fun lhs2 =>
                    (ops (g+1)).mulLoop [] sum2 lhs2))) := rfl
          rw [h, (ih (g+1) (Nat.lt_succ_self (g+1))).2.2.2, error_bind]
      · have hcond : (is_positive (fromInt 0) != is_positive v) = true := by
          rw [hpos]; rfl
        have h : (ops (f+1)).add (fromInt 0) v
            = if is_positive (fromInt 0) != is_positive v then
                ((ops f).mulInt v (-1)).bind (fun nb => (ops f).sub (fromInt 0) nb)
              else
                (addLoop (count (fromInt 0)) v.m_data 0
                    (max (count (fromInt 0)) (count v)) (fromInt 0).m_data 0).bind
                  (fun data => .ok ⟨(fromInt 0).m_sign, data⟩) := rfl
        rw [h, if_pos hcond, (ih f (Nat.lt_succ_self f)).1, error_bind]

/-- CLAIM C1.  The claim states that a += b, a -= b and a *= b terminate
for every pair of operands, the mixed-sign delegations always reaching a
terminating case.  The code refutes it: BigInteger(1) += BigInteger(-1)
delegates to subtraction of rhs * -1, and negating the negative operand
cycles forever (see mulNegOne_diverges); the subtraction
BigInteger(1) -= BigInteger(-1) delegates to addition of rhs * -1 and
diverges the same way.  The result is fuelOut at every fuel, the model
rendering of a C++ call that never returns. -/
theorem C1_mixed_sign_add_diverges :
    ∀ fuel : Nat,
      addAssign fuel (fromInt 1) (fromInt (-1)) = .error .fuelOut
        ∧ subAssign fuel (fromInt 1) (fromInt (-1)) = .error .fuelOut := by
  intro fuel
  cases fuel with
  | zero => exact ⟨rfl, rfl⟩
  | succ f =>
    constructor
    · have h : addAssign (f+1) (fromInt 1) (fromInt (-1))
          = ((ops f).mulInt (fromInt (-1)) (-1)).bind
              (fun nb => (ops f).sub (fromInt 1) nb) := rfl
      rw [h, (mulNegOne_diverges (fromInt (-1)) (by decide) f).1, error_bind]
    · have h : subAssign (f+1) (fromInt 1) (fromInt (-1))
          = ((ops f).mulInt (fromInt (-1)) (-1)).bind
              (fun nb => (ops f).add (fromInt 1) nb) := rfl
      rw [h, (mulNegOne_diverges (fromInt (-1)) (by decide) f).1, error_bind]

/-- CLAIM C2.  The claim states the sign law of multiplication, with
BigInteger(-3) * BigInteger(-4) == BigInteger(12) as an instance.  The
code refutes it: a multiply whose left operand is negative diverges as
soon as a nonzero digit of the right operand is processed, because the
partial product lhs * digit is negative and adding it into the POSITIVE
zero accumulator delegates through the divergent negation of
mulNegOne_diverges.  So BigInteger(-3) * BigInteger(-4) never returns,
let alone returns 12.  (The positive-lhs half of the sign law does hold:
the last conjunct computes 3 * -4 = -12.) -/
theorem C2_negative_times_negative_diverges :
    (∀ fuel : Nat, mulAssignBig fuel (fromInt (-3)) (fromInt (-4)) = .error .fuelOut)
      ∧ mulAssignBig 9 (fromInt 3) (fromInt (-4)) = .ok ⟨Sign.NEGATIVE, [2, 1]⟩ := by
  constructor
  · intro fuel
    cases fuel with
    | zero => rfl
    | succ f =>
      have hloop : ∀ g : Nat, (ops g).mulLoop [4] (fromInt 0) (fromInt (-3)) = .error .fuelOut := by
        intro g
        match g with
        | 0 => rfl
        | 1 => rfl
        | h + 2 =>
          have he : (ops (h+2)).mulLoop [4] (fromInt 0) (fromInt (-3))
              = ((ops (h+1)).add (fromInt 0) ⟨Sign.NEGATIVE, [2, 1]⟩).bind (fun sum2 =>
                  (((ops (h+1)).mulInt (fromInt (-3)) 10).bind (fun lhs2 =>
                    (ops (h+1)).mulLoop [] sum2 lhs2))) := rfl
          rw [he, (mulNegOne_diverges ⟨Sign.NEGATIVE, [2, 1]⟩ rfl (h+1)).2.2.2, error_bind]
      have h : mulAssignBig (f+1) (fromInt (-3)) (fromInt (-4))
          = ((ops f).mulLoop [4] (fromInt 0) (fromInt (-3))).bind
              (fun sum => .ok (if (fromInt (-3)).m_sign != (fromInt (-4)).m_sign
                               then ⟨Sign.NEGATIVE, sum.m_data⟩ else sum)) := rfl
      rw [h, hloop f, error_bind]
  · rfl

/-- CLAIM C3.  The claim states that a - a compares equal to BigInteger(0)
for every a, in particular for negative a subtracted as a distinct equal
value.  The code refutes it: subtracting the distinct value
BigInteger(-3) from BigInteger(-3) runs the same-sign digit loop and
normalization, which empty the digit vector but leave the sign flag
NEGATIVE, and the resulting state compares unequal to BigInteger(0)
because member equal requires identical signs.  (The self-aliased branch,
by contrast, does assign the canonical zero.) -/
theorem C3_sub_equal_negatives_not_zero :
    subAssign 5 (fromInt (-3)) (fromInt (-3)) = .ok ⟨Sign.NEGATIVE, []⟩
      ∧ equal ⟨Sign.NEGATIVE, []⟩ (fromInt 0) = false
      ∧ equal (subAssignSelf (fromInt (-3))) (fromInt 0) = true :=
  ⟨rfl, rfl, rfl⟩

/-- CLAIM C4.  The claim states that every zero produced by a public
operation carries sign POSITIVE and an empty digit vector.  The code
refutes it: BigInteger(-3) * BigInteger(0) terminates (the digit loop of
the zero operand is empty) and produces the empty digit vector with the
sign forced to NEGATIVE, because operator*= negates whenever the operand
signs differ, even when the accumulated product is zero. -/
theorem C4_negative_zero_reachable :
    mulAssignBig 5 (fromInt (-3)) (fromInt 0) = .ok ⟨Sign.NEGATIVE, []⟩
      ∧ bigVal ⟨Sign.NEGATIVE, []⟩ = 0
      ∧ (⟨Sign.NEGATIVE, []⟩ : BigInteger).m_sign ≠ Sign.POSITIVE :=
  ⟨rfl, rfl, by decide⟩

/-- CLAIM C5.  The claim states that an empty digit vector renders as the
single zero character regardless of the sign flag.  The code refutes it:
to_string pushes the minus character before checking for emptiness, so
the negative-signed empty state (reachable, see the C4 theorem) renders
as just a minus sign. -/
theorem C5_empty_negative_renders_dash :
    to_string ⟨Sign.NEGATIVE, []⟩ = "-"
      ∧ to_string ⟨Sign.NEGATIVE, []⟩ ≠ "0"
      ∧ to_string ⟨Sign.POSITIVE, []⟩ = "0" :=
  ⟨rfl, by decide, rfl⟩

/-- CLAIM C6.  The claim states that the text constructors yield
normalized values, naming the inputs 0 and 007.  The code refutes it:
the string constructor pushes every filtered character as a digit and
never calls normalize, so parsing 007 stores the digits 7, 0, 0 with two
most-significant zeros, and parsing 0 stores the single digit 0 instead
of the canonical empty vector of BigInteger(0). -/
theorem C6_string_ctor_keeps_leading_zeros :
    fromString "007" = ⟨Sign.POSITIVE, [7, 0, 0]⟩
      ∧ no_leading_zeros (fromString "007") = false
      ∧ fromString "0" = ⟨Sign.POSITIVE, [0]⟩
      ∧ fromString "0" ≠ fromInt 0 :=
  ⟨rfl, rfl, rfl, by decide⟩

/-- CLAIM C7.  The claim states that a >= b holds exactly when a > b or
a == b.  The code refutes it: operator>= is written
(lhs == rhs) || (rhs > rhs), comparing rhs with itself in the second
disjunct, so it degenerates to equality; BigInteger(1) >= BigInteger(0)
returns false although BigInteger(1) > BigInteger(0) returns true. -/
theorem C7_ge_is_just_equality :
    geBig (fromInt 1) (fromInt 0) = false
      ∧ gtBig (fromInt 1) (fromInt 0) = true
      ∧ eqBig (fromInt 1) (fromInt 0) = false :=
  ⟨rfl, rfl, rfl⟩

/-- CLAIM C8.  The claim states that the value constructed from any
native signed integer renders as its canonical decimal text, including
the most negative 32-bit value.  The code refutes it at that value: the
constructor executes num *= -1, which overflows, leaving num negative
under two's-complement wraparound; the digit loop then stores negative
remainders, and rendering shifts each by 48 into punctuation characters
instead of decimal digits.  The neighbouring value -2147483647 renders
correctly. -/
theorem C8_int_min_renders_garbage :
    to_string (fromInt (-2147483648)) = "-./,),(-*,("
      ∧ to_string (fromInt (-2147483648)) ≠ "-2147483648"
      ∧ to_string (fromInt (-2147483647)) = "-2147483647" :=
  ⟨rfl, by decide, rfl⟩

theorem get_digitL_append_cons (pre : List Int) (d : Int) (rest : List Int) :
    get_digitL (pre ++ d :: rest) (pre.length : Int) = d := by
  have hlen : ((pre ++ d :: rest).length : Int) = pre.length + rest.length + 1 := by
    simp [List.length_append]
    omega
  have hb : (0:Int) ≤ (pre.length : Int) ∧ (pre.length : Int) < ((pre ++ d :: rest).length : Int) := by
    omega
  rw [get_digitL, if_pos hb]
  have hnat : (pre.length : Int).toNat = pre.length := Int.toNat_natCast _
  rw [hnat]
  have hlt : pre.length < (pre ++ d :: rest).length := by
    simp [List.length_append]
  rw [List.getD_eq_getElem _ _ hlt, List.getElem_append_right (Nat.le_refl _)]
  simp

theorem change_digit_append_cons (pre : List Int) (d v : Int) (rest : List Int) :
    change_digit (pre ++ d :: rest) (pre.length : Int) v = .ok (pre ++ v :: rest) := by
  have hlen : ((pre ++ d :: rest).length : Int) = pre.length + rest.length + 1 := by
    simp [List.length_append]
    omega
  have hb : (0:Int) ≤ (pre.length : Int) ∧ (pre.length : Int) < ((pre ++ d :: rest).length : Int) := by
    omega
  rw [change_digit, if_pos hb]
  have hnat : (pre.length : Int).toNat = pre.length := Int.toNat_natCast _
  rw [hnat, List.set_append, if_neg (Nat.lt_irrefl _), Nat.sub_self, List.set_cons_zero]

/-- Bridge between the in-place digit loop of the scalar multiply and its
structural unrolling: starting at index pre.length on the vector
pre ++ suf, the loop leaves the prefix alone and rewrites the suffix as
scalarPure does. -/
theorem scalarLoop_eq_pure (num : Int) :
    ∀ (suf pre : List Int) (carry : Int),
      scalarLoop num pre.length carry suf.length (pre ++ suf)
        = .ok (pre ++ scalarPure num suf carry) := by
  intro suf
  induction suf with
  | nil =>
    intro pre carry
    show Except.ok (if carry ≠ 0 then push_digit (pre ++ []) carry else pre ++ []) = _
    by_cases h : carry = 0
    · simp [h, scalarPure]
    · simp [h, scalarPure, push_digit]
  | cons d rest ih =>
    intro pre carry
    show (change_digit (pre ++ d :: rest) (pre.length : Int)
            ((num * get_digitL (pre ++ d :: rest) (pre.length : Int) + carry).tmod BASE)).bind
          (scalarLoop num (pre.length + 1)
            ((num * get_digitL (pre ++ d :: rest) (pre.length : Int) + carry).tdiv BASE)
            rest.length)
        = _
    rw [get_digitL_append_cons, change_digit_append_cons, ok_bind]
    have hlen : pre.length + 1 = (pre ++ [(num * d + carry).tmod BASE]).length := by
      simp
    have happ : pre ++ (num * d + carry).tmod BASE :: rest
        = (pre ++ [(num * d + carry).tmod BASE]) ++ rest := by
      simp
    rw [happ, hlen, ih]
    simp [scalarPure]

/-- Value and digit-range invariant of the unrolled scalar multiply: with
a scalar in (0, 10], digits in [0, 9] and an incoming carry in [0, 9],
the produced digit list is worth num * value + carry and all its digits
are again in [0, 9] (so the final carry is at most 9 and a single push
always suffices, also for num = 10). -/
theorem scalarPure_val (num : Int) (h0 : 0 < num) (h10 : num ≤ 10) :
    ∀ (ds : List Int) (carry : Int), 0 ≤ carry → carry ≤ 9 →
      (∀ d ∈ ds, 0 ≤ d ∧ d ≤ 9) →
      listVal (scalarPure num ds carry) = num * listVal ds + carry
        ∧ ∀ d ∈ scalarPure num ds carry, 0 ≤ d ∧ d ≤ 9 := by
  intro ds
  induction ds with
  | nil =>
    intro carry hc0 hc9 _
    by_cases h : carry = 0
    · simp [scalarPure, h, listVal]
    · simp only [scalarPure, if_pos h, listVal]
      constructor
      · ring
      · intro d hd
        simp at hd
        omega
  | cons d rest ih =>
    intro carry hc0 hc9 hds
    have hdmem : 0 ≤ d ∧ d ≤ 9 := hds d (List.mem_cons_self d rest)
    have hrest : ∀ x ∈ rest, 0 ≤ x ∧ x ≤ 9 := fun x hx => hds x (List.mem_cons_of_mem d hx)
    have hp0 : 0 ≤ num * d + carry := add_nonneg (mul_nonneg h0.le hdmem.1) hc0
    have hp99 : num * d + carry ≤ 99 := by nlinarith
    have htm : (num * d + carry).tmod BASE = (num * d + carry) % 10 :=
      Int.tmod_eq_emod hp0 (by rw [BASE]; omega)
    have htd : (num * d + carry).tdiv BASE = (num * d + carry) / 10 :=
      Int.tdiv_eq_ediv hp0 (by rw [BASE]; omega)
    have hc20 : 0 ≤ (num * d + carry) / 10 := by omega
    have hc29 : (num * d + carry) / 10 ≤ 9 := by omega
    obtain ⟨ihv, ihd⟩ := ih ((num * d + carry) / 10) hc20 hc29 hrest
    constructor
    · show listVal ((num * d + carry).tmod BASE
          :: scalarPure num rest ((num * d + carry).tdiv BASE))
        = num * listVal (d :: rest) + carry
      rw [listVal, htm, htd, ihv, listVal]
      have hsplit : 10 * ((num * d + carry) / 10) + (num * d + carry) % 10 = num * d + carry := by
        omega
      ring_nf
      ring_nf at hsplit
      omega
    · intro x hx
      rw [scalarPure] at hx
      rcases List.mem_cons.mp hx with h | h
      · subst h
        rw [htm]
        omega
      · rw [htd] at h
        exact ihd x h

/-- CLAIM C9.  Confirmed.  For every state with digits in [0, 9] and
every scalar 0 < n <= 10, the fast path of operator*= by an int returns
(one fuel level suffices, the path never delegates), the numeric value is
multiplied by exactly n, the sign flag is preserved, and every stored
digit is again in [0, 9].  In particular the n = 10 boundary is safe:
the carry never exceeds 9, so the single trailing push of the source
appends every digit that is needed. -/
theorem C9_scalar_fast_path_correct (a : BigInteger) (n : Int) (fuel : Nat)
    (hd : ∀ d ∈ a.m_data, 0 ≤ d ∧ d ≤ 9) (h0 : 0 < n) (h10 : n ≤ 10) :
    ∃ r, mulAssignInt (fuel+1) a n = .ok r
      ∧ bigVal r = n * bigVal a
      ∧ r.m_sign = a.m_sign
      ∧ ∀ d ∈ r.m_data, 0 ≤ d ∧ d ≤ 9 := by
  by_cases h1 : n = 1
  · subst h1
    refine ⟨a, ?_, by ring, rfl, hd⟩
    show (ops (fuel+1)).mulInt a 1 = .ok a
    simp [ops]
  · have hne0 : ¬(n = 0) := by omega
    have hnd : ¬(BASE < n ∨ n < 0) := by
      rw [BASE]
      omega
    have hbody : mulAssignInt (fuel+1) a n
        = (scalarLoop n 0 0 (count a) a.m_data).bind (fun data =>
            .ok ⟨if is_negative a && decide (0 < n) then Sign.NEGATIVE else a.m_sign, data⟩) := by
      show (ops (fuel+1)).mulInt a n = _
      simp only [ops]
      rw [if_neg hne0, if_neg h1, if_neg hnd]
    have hbridge : scalarLoop n 0 0 (count a) a.m_data
        = .ok (scalarPure n a.m_data 0) := by
      have h := scalarLoop_eq_pure n a.m_data [] 0
      simpa [count] using h
    obtain ⟨hval, hdig⟩ :=
      scalarPure_val n h0 h10 a.m_data 0 (by omega) (by omega) hd
    have hsign : (if is_negative a && decide (0 < n) then Sign.NEGATIVE else a.m_sign)
        = a.m_sign := by
      cases hs : a.m_sign with
      | POSITIVE =>
        have hneg : is_negative a = false := by
          unfold is_negative
          rw [hs]
          rfl
        simp [hneg]
      | NEGATIVE =>
        have hneg : is_negative a = true := by
          unfold is_negative
          rw [hs]
          rfl
        simp [hneg, decide_eq_true h0, hs]
    refine ⟨⟨if is_negative a && decide (0 < n) then Sign.NEGATIVE else a.m_sign,
            scalarPure n a.m_data 0⟩, ?_, ?_, hsign, hdig⟩
    · rw [hbody, hbridge, ok_bind]
    · show (if (if is_negative a && decide (0 < n) then Sign.NEGATIVE else a.m_sign)
              = Sign.NEGATIVE then (-1:Int) else 1) * listVal (scalarPure n a.m_data 0)
          = n * bigVal a
      rw [hsign, hval, bigVal]
      ring

/-- Witness for the C9 theorem: 95 * 10 at the boundary scalar. -/
theorem C9_scalar_fast_path_correct_witness :
    ∃ r, mulAssignInt 1 (fromInt 95) 10 = .ok r
      ∧ bigVal r = 10 * bigVal (fromInt 95)
      ∧ r.m_sign = (fromInt 95).m_sign
      ∧ ∀ d ∈ r.m_data, 0 ≤ d ∧ d ≤ 9 :=
  C9_scalar_fast_path_correct (fromInt 95) 10 0 (by decide) (by decide) (by decide)

theorem notInvalid_ok {α : Type} (x : α) : notInvalid (Except.ok x : Except Err α) := by
  intro p h
  exact Except.noConfusion h

theorem notInvalid_fuelOut {α : Type} :
    notInvalid (Except.error Err.fuelOut : Except Err α) := by
  intro p h
  injection h with h2
  exact Err.noConfusion h2

theorem notInvalid_bind {α β : Type} {r : Except Err α} {f : α → Except Err β}
    (h1 : notInvalid r) (h2 : ∀ x, notInvalid (f x)) : notInvalid (r.bind f) := by
  cases r with
  | ok a => exact h2 a
  | error e =>
    intro p h
    rw [error_bind] at h
    injection h with he
    exact h1 p (he ▸ rfl)

/-- The carry loop of operator+= performs only in-range writes: the write
branch is guarded by i < l_size, and l_size never exceeds the current
vector length (writes preserve the length and pushes grow it). -/
theorem addLoop_ok (rhs : List Int) :
    ∀ (k l_size i : Nat) (data : List Int) (carry : Int),
      l_size ≤ data.length → ∃ out, addLoop l_size rhs i k data carry = .ok out := by
  intro k
  induction k with
  | zero =>
    intro l_size i data carry _
    exact ⟨_, rfl⟩
  | succ k ih =>
    intro l_size i data carry h
    simp only [addLoop]
    by_cases hi : i < l_size
    · rw [if_pos hi]
      have hcd : change_digit data (i : Int)
            ((get_digitL data i + get_digitL rhs i + carry).tmod BASE)
          = .ok (data.set (i : Int).toNat
            ((get_digitL data i + get_digitL rhs i + carry).tmod BASE)) := by
        rw [change_digit, if_pos]
        constructor <;> omega
      rw [hcd, ok_bind]
      exact ih l_size (i+1) _ _ (by simp [List.length_set]; omega)
    · rw [if_neg hi]
      exact ih l_size (i+1) _ _ (by simp [push_digit]; omega)

/-- The borrow loop of operator-= performs only in-range writes: it
iterates i below the vector length, which the writes preserve. -/
theorem subLoop_ok (rhs : List Int) :
    ∀ (k i : Nat) (borrow : Int) (data : List Int),
      i + k ≤ data.length → ∃ out, subLoop rhs i borrow k data = .ok out := by
  intro k
  induction k with
  | zero =>
    intro i borrow data _
    exact ⟨_, rfl⟩
  | succ k ih =>
    intro i borrow data h
    simp only [subLoop]
    have hcd : ∀ v : Int, change_digit data (i : Int) v = .ok (data.set (i : Int).toNat v) := by
      intro v
      rw [change_digit, if_pos]
      constructor <;> omega
    rw [hcd, ok_bind]
    exact ih (i+1) _ _ (by simp [List.length_set]; omega)

/-- The scalar-multiply loop of operator*= by an int performs only
in-range writes, for the same reason as subLoop_ok. -/
theorem scalarLoop_ok (num : Int) :
    ∀ (k i : Nat) (carry : Int) (data : List Int),
      i + k ≤ data.length → ∃ out, scalarLoop num i carry k data = .ok out := by
  intro k
  induction k with
  | zero =>
    intro i carry data _
    exact ⟨_, rfl⟩
  | succ k ih =>
    intro i carry data h
    simp only [scalarLoop]
    have hcd : ∀ v : Int, change_digit data (i : Int) v = .ok (data.set (i : Int).toNat v) := by
      intro v
      rw [change_digit, if_pos]
      constructor <;> omega
    rw [hcd, ok_bind]
    exact ih (i+1) _ _ (by simp [List.length_set]; omega)

/-- No arithmetic entry point, at any fuel and on any operands, ever
returns the out-of-range write failure: every change_digit call of every
digit loop is index-guarded, so the only error the model can produce is
fuel exhaustion. -/
theorem ops_notInvalid : ∀ f : Nat,
    (∀ a b, notInvalid ((ops f).add a b))
      ∧ (∀ a b, notInvalid ((ops f).sub a b))
      ∧ (∀ a b, notInvalid ((ops f).mulBig a b))
      ∧ (∀ ds sum lhs, notInvalid ((ops f).mulLoop ds sum lhs))
      ∧ (∀ a n, notInvalid ((ops f).mulInt a n)) := by
  intro f
  induction f with
  | zero =>
    exact ⟨fun _ _ => notInvalid_fuelOut, fun _ _ => notInvalid_fuelOut,
           fun _ _ => notInvalid_fuelOut, fun _ _ _ => notInvalid_fuelOut,
           fun _ _ => notInvalid_fuelOut⟩
  | succ f ih =>
    obtain ⟨iha, ihs, ihm, ihl, ihi⟩ := ih
    refine ⟨?_, ?_, ?_, ?_, ?_⟩
    · intro a b
      simp only [ops]
      split
      · exact notInvalid_bind (ihi b (-1)) (fun nb => ihs a nb)
      · obtain ⟨out, hout⟩ :=
          addLoop_ok b.m_data (max (count a) (count b)) (count a) 0 a.m_data 0 (le_refl _)
        rw [hout]
        exact notInvalid_ok _
    · intro a b
      simp only [ops]
      split
      · exact notInvalid_bind (ihi b (-1)) (fun nb => iha a nb)
      · split
        · exact notInvalid_bind (ihs b a) (fun c => notInvalid_ok _)
        · obtain ⟨out, hout⟩ := subLoop_ok b.m_data (count a) 0 0 a.m_data (by simp [count])
          rw [hout]
          exact notInvalid_ok _
    · intro a b
      simp only [ops]
      exact notInvalid_bind (ihl b.m_data (fromInt 0) a) (fun sum => notInvalid_ok _)
    · intro ds sum lhs
      cases ds with
      | nil => exact notInvalid_ok _
      | cons d rest =>
        simp only [ops]
        exact notInvalid_bind (ihi lhs d) (fun p =>
          notInvalid_bind (iha sum p) (fun sum2 =>
            notInvalid_bind (ihi lhs 10) (fun lhs2 => ihl rest sum2 lhs2)))
    · intro a n
      simp only [ops]
      split
      · exact notInvalid_ok _
      · split
        · exact notInvalid_ok _
        · split
          · exact ihm a (fromInt n)
          · obtain ⟨out, hout⟩ := scalarLoop_ok n (count a) 0 0 a.m_data (by simp [count])
            rw [hout]
            exact notInvalid_ok _

/-- CLAIM C10.  Confirmed.  The read accessor answers 0 at every
out-of-range position (negative or at least the stored length); the
mutating write at an out-of-range position fails with exactly the
offending position; and no public arithmetic operation, at any fuel, on
any operands, aliased or not, ever reaches that failure: the only
non-value outcome the arithmetic can produce is the fuel marker of the
divergent delegations. -/
theorem C10_digit_access_policy :
    (∀ (b : BigInteger) (pos : Int), pos < 0 ∨ ((count b : Nat) : Int) ≤ pos →
        get_digit b pos = 0)
      ∧ (∀ (data : List Int) (pos val : Int), pos < 0 ∨ (data.length : Int) ≤ pos →
          change_digit data pos val = .error (.invalidPos pos))
      ∧ (∀ (fuel : Nat) (a b : BigInteger) (p : Int),
          addAssign fuel a b ≠ .error (.invalidPos p)
            ∧ subAssign fuel a b ≠ .error (.invalidPos p)
            ∧ mulAssignBig fuel a b ≠ .error (.invalidPos p)
            ∧ (∀ num : Int, mulAssignInt fuel a num ≠ .error (.invalidPos p))
            ∧ addAssignSelf fuel a ≠ .error (.invalidPos p)) := by
  refine ⟨?_, ?_, ?_⟩
  · intro b pos h
    simp only [count] at h
    rw [get_digit, get_digitL, if_neg]
    omega
  · intro data pos val h
    rw [change_digit, if_neg]
    omega
  · intro fuel a b p
    obtain ⟨ha, hs, hm, hl, hi⟩ := ops_notInvalid fuel
    exact ⟨ha a b p, hs a b p, hm a b p, fun num => hi a num p, hi a 2 p⟩

/-- Witness for the C10 theorem at concrete inputs: a read past the end
of a one-digit value, a write past the end, and an addition. -/
theorem C10_digit_access_policy_witness :
    get_digit ⟨Sign.POSITIVE, [5]⟩ 7 = 0
      ∧ change_digit [5] 7 3 = .error (.invalidPos 7)
      ∧ addAssign 3 (fromInt 12) (fromInt 34) ≠ .error (.invalidPos 0) :=
  ⟨C10_digit_access_policy.1 ⟨Sign.POSITIVE, [5]⟩ 7 (by decide),
   C10_digit_access_policy.2.1 [5] 7 3 (by decide),
   (C10_digit_access_policy.2.2 3 (fromInt 12) (fromInt 34) 0).1⟩

end gh
